import Mathlib

/-!
Verification development for multiPointSparse.py (florent-engineering/multipoint).

The Python source is shallowly embedded below.  Python dictionaries (whose
iteration order is insertion order) are modelled as association lists, MPI
collective calls are modelled by explicit data and an event trace, machine
reals and complexes are modelled as exact rationals (the complex-step constant
1e-40 becomes the exact rational 1/10^40), and raised exceptions are modelled
with Except.  Each definition cites the source lines it embeds.
-/

namespace MPS

/-- Python dict lookup (`d[k]` / `k in d`) on an association list. -/
def alookup {α : Type} : List (String × α) → String → Option α
  | [], _ => none
  | (k, v) :: rest, key => if k = key then some v else alookup rest key

/-- Python dict assignment `d[k] = v`: overwrite in place if the key exists,
otherwise append (insertion order is preserved, as for a Python dict). -/
def setKey {α : Type} (d : List (String × α)) (k : String) (v : α) :
    List (String × α) :=
  if (alookup d k).isSome then
    d.map (fun p => if p.1 = k then (k, v) else p)
  else
    d ++ [(k, v)]

/-- Python `d.update(new)`: assign every pair of `new` into `d` in order. -/
def dictUpdate {α : Type} (d new : List (String × α)) : List (String × α) :=
  new.foldl (fun acc p => setKey acc p.1 p.2) d

/-- Cumulative prefix sum of a size list: `cum sizes i = sizes[0] + ... +
sizes[i-1]`.  This is the value `cumGroups[i]` (createGroups, lines 80-84),
`cumSets[i]` (createCommunicators, lines 297-299) and `cumGroups[i]`
(procSet.createCommunicators, lines 756-759) of the source. -/
def cum (sizes : List Nat) (i : Nat) : Nat :=
  (sizes.take i).sum

/-- Interval-membership test `cum[i] <= rank < cum[i+1]` used by all three
partitioning loops of the source (lines 87-90, 304-308, 763-766). -/
def inInterval (sizes : List Nat) (rank i : Nat) : Bool :=
  decide (cum sizes i ≤ rank) && decide (rank < cum sizes (i + 1))

/-- The `for i in range(n): if inInterval: key = i` loop of the source
(createGroups lines 87-90, createCommunicators lines 304-308,
procSet.createCommunicators lines 762-766): the loop variable keeps the last
matching index, and is unbound (`none`) when no interval matches. -/
def memberKeyModel (sizes : List Nat) (rank : Nat) : Option Nat :=
  (List.range sizes.length).foldl
    (fun acc i => if inInterval sizes rank i then some i else acc) none

/-- The per-set membership flags: createCommunicators lines 304-310 store,
for every registered set (in setID order), whether this rank lies in that
set interval. -/
def setFlagsModel (sizes : List Nat) (rank : Nat) : List Bool :=
  (List.range sizes.length).map (fun i => inInterval sizes rank i)

/-- procSet.createCommunicators lines 768-772: `groupFlags` is an all-false
vector with index `m_key` set true, and `groupID` is `m_key`; `none` models
the `TypeError` that indexing with `m_key = None` would raise. -/
def procSetCreateCommunicators (memberSizes : List Nat) (rank : Nat) :
    Option (List Bool × Nat) :=
  match memberKeyModel memberSizes rank with
  | none => none
  | some m => some ((List.range memberSizes.length).map (fun i => decide (i = m)), m)

/-- Structured model of the MPError exceptions raised by the source (the
box-drawing string formatting of the MPError class, lines 36-53, is abstracted
away; each constructor carries exactly the quantities interpolated into the
corresponding message). -/
inductive MPErr : Type where
  /-- createCommunicators lines 287-289: "multiPointSparse must be called with
  EXACTLY %d processors." names the required total processor count. -/
  | exactProcs (required : Nat)
  /-- createGroups lines 75-77: "Cannot split comm. Comm has %d processors,
  but requesting to split into %d." names both counts. -/
  | cannotSplit (commSize requested : Nat)
  /-- addProcessorSet lines 242-244: "The suppliled memberSizes list is not
  the correct length." -/
  | memberSizesLength
  deriving DecidableEq, Repr

/-- One collective-communication call, for the event traces of the models. -/
inductive CommEvent : Type where
  | split
  | gather
  | bcastSend (key : String)
  | bcastRecv (key : String)
  | reduceFail
  deriving DecidableEq, Repr

/-- createGroups (lines 59-97): check `comm.size == sum(sizes)` and raise
before splitting otherwise; on success split and build the flag vector.
The returned trace records whether the collective split was performed. -/
def createGroupsModel (sizes : List Nat) (commSize rank : Nat) :
    Except MPErr (List Bool) × List CommEvent :=
  let nTotal := sizes.sum
  if ¬ (commSize = nTotal) then
    (Except.error (MPErr.cannotSplit commSize nTotal), [])
  else
    match memberKeyModel sizes rank with
    | none => (Except.error (MPErr.cannotSplit commSize nTotal), [])
    | some m =>
      ((Except.ok ((List.range sizes.length).map (fun i => decide (i = m)))),
        [CommEvent.split])

/-- multiPointSparse.createCommunicators, size check and set assignment
(lines 281-312): `nProc` is the sum over registered processor sets of the
set totals (`procSet.nProc = sum(memberSizes)`, line 740); a size mismatch
raises before the `gcomm.Split` call; otherwise the rank is assigned a set by
interval membership and the split is performed.  Each processor set is given
by its memberSizes list, listed in setID (registration) order. -/
def createCommunicatorsModel (sets : List (List Nat)) (gcommSize rank : Nat) :
    Except MPErr (List Bool × Nat) × List CommEvent :=
  let setSizes := sets.map List.sum
  let nProc := setSizes.sum
  if nProc < gcommSize ∨ nProc > gcommSize then
    (Except.error (MPErr.exactProcs nProc), [])
  else
    match memberKeyModel setSizes rank with
    | none => (Except.error (MPErr.exactProcs nProc), [])
    | some m => (Except.ok (setFlagsModel setSizes rank, m), [CommEvent.split])

/-- The rank a process holds inside its set communicator after
`gcomm.Split(memberKey)` (line 312): MPI orders ranks with equal split keys
by parent rank, and set `s` occupies the contiguous parent ranks
`[cum s, cum (s+1))`, so the split rank is the offset into that interval. -/
def setCommRank (setSizes : List Nat) (s rank : Nat) : Nat :=
  rank - cum setSizes s

/-! ## Communication pattern (obj, first pass, lines 529-544) -/

/-- The inner loop of the first-pass discovery (obj lines 538-544): walk the
keys gathered from processor `i`, adding a key only when it is not yet
present and is not the reserved name `fail`. -/
def addRankKeys (pat : List (String × Nat)) (i : Nat) :
    List String → List (String × Nat)
  | [] => pat
  | k :: rest =>
    if (alookup pat k).isSome then addRankKeys pat i rest
    else if k = "fail" then addRankKeys pat i rest
    else addRankKeys (pat ++ [(k, i)]) i rest

/-- The outer loop over processors (obj lines 538-544), starting from the
pattern `pat` and processor index `i`. -/
def buildPatternFrom (pat : List (String × Nat)) (i : Nat) :
    List (List String) → List (String × Nat)
  | [] => pat
  | keys :: rest => buildPatternFrom (addRankKeys pat i keys) (i + 1) rest

/-- obj lines 536-544: the one-time communication pattern built from the
allgathered per-rank key lists (`allKeys[i]` is the key list of rank `i`). -/
def buildCommPattern (allKeys : List (List String)) : List (String × Nat) :=
  buildPatternFrom [] 0 allKeys

/-- Written from the spec sentence being checked against the source: the
owner of key `k` is the lowest rank whose gathered key list contains `k`
(`none` when no rank produced it). -/
def lowestOwnerSpec (k : String) : List (List String) → Option Nat
  | [] => none
  | keys :: rest =>
    if k ∈ keys then some 0 else (lowestOwnerSpec k rest).map (· + 1)

/-- obj lines 529-544: the pattern field is rebuilt only when it is still
`None`; a frozen pattern is reused unchanged by every later call. -/
def objUpdatePattern (cur : Option (List (String × Nat)))
    (allKeys : List (List String)) : List (String × Nat) :=
  match cur with
  | none => buildCommPattern allKeys
  | some p => p

/-! ## Broadcast unification (obj lines 546-554, sens lines 605-613)

Both loops are textually identical: walk the frozen pattern; the owning rank
broadcasts its local value `res[key]` (a KeyError if the key is missing from
`res`), the other ranks receive.  `recvVal k` is the value delivered to a
non-owner by the broadcast of key `k`. -/

/-- Python errors reachable in the embedded fragments. -/
inductive PyErr : Type where
  /-- `res[key]` with `key` absent (obj line 550 / sens line 609). -/
  | keyError (key : String)
  /-- the `assert tmp is not None` failures (obj lines 521-523, sens lines
  597-599); carries the processor-set name interpolated into the message. -/
  | assertNoReturn (setName : String)
  /-- `res` referenced while unbound (UnboundLocalError on the variable). -/
  | unboundLocalRes
  deriving DecidableEq, Repr

/-- One step of the broadcast loop for pattern entry `(k, owner)`. -/
def unifyStep {α : Type} (rank : Nat) (res : List (String × α))
    (recvVal : String → α) (acc : List (String × α)) (entry : String × Nat) :
    Except PyErr (List (String × α)) :=
  if entry.2 = rank then
    match alookup res entry.1 with
    | none => Except.error (PyErr.keyError entry.1)
    | some v => Except.ok (acc ++ [(entry.1, v)])
  else
    Except.ok (acc ++ [(entry.1, recvVal entry.1)])

/-- The broadcast loop from the accumulator `acc` on: a raised exception
aborts the remaining iterations. -/
def unifyFrom {α : Type} (rank : Nat) (res : List (String × α))
    (recvVal : String → α) (acc : List (String × α)) :
    List (String × Nat) → Except PyErr (List (String × α))
  | [] => Except.ok acc
  | entry :: rest =>
    match unifyStep rank res recvVal acc entry with
    | Except.error e => Except.error e
    | Except.ok acc2 => unifyFrom rank res recvVal acc2 rest

/-- The whole broadcast loop: `allFuncs` (obj) / `funcSens` (sens) collects
one entry per pattern key, in pattern order. -/
def unify {α : Type} (pattern : List (String × Nat)) (rank : Nat)
    (res : List (String × α)) (recvVal : String → α) :
    Except PyErr (List (String × α)) :=
  unifyFrom rank res recvVal [] pattern

/-! ## Key partition and extraction (obj lines 562-571) -/

/-- obj line 566: `inputKeys = funckeys.difference(conKeys)`. -/
def inputKeysModel (funckeys conKeys : Finset String) : Finset String :=
  funckeys \ conKeys

/-- obj line 567: `outputKeys = conKeys.difference(funckeys)`. -/
def outputKeysModel (funckeys conKeys : Finset String) : Finset String :=
  conKeys \ funckeys

/-- obj line 568: `passThroughKeys = funckeys.intersection(conKeys)`. -/
def passThroughKeysModel (funckeys conKeys : Finset String) : Finset String :=
  funckeys ∩ conKeys

/-- _extractKeys (lines 722-727): a fresh dict holding, for each requested
key, a deep copy of the stored value (deep copying is the identity in this
pure model); keys absent from `funcs` would raise, so the domain of the
result is exactly `keys ∩ dom funcs`. -/
def extractKeysModel {α : Type} (funcs : String → Option α)
    (keys : Finset String) : String → Option α :=
  fun k => if k ∈ keys then funcs k else none

/-! ## Numeric model

Machine floats and complexes are modelled by exact rationals: a complex
number is a pair of rationals, and the complex-step size 1e-40 is the exact
rational 1/10^40. -/

/-- A complex number with rational real and imaginary parts. -/
structure Cx : Type where
  re : ℚ
  im : ℚ
  deriving DecidableEq, Repr

instance : Add Cx := ⟨fun a b => ⟨a.re + b.re, a.im + b.im⟩⟩

instance : Mul Cx :=
  ⟨fun a b => ⟨a.re * b.re - a.im * b.im, a.re * b.im + a.im * b.re⟩⟩

/-- The perturbation step 1e-40 of sens (lines 665, 687). -/
def csEps : ℚ := 1 / 10 ^ 40

/-- A Python numeric value as stored in the `self.funcs` snapshot: a real
scalar (Python float), a complex scalar, a real numpy array, or a complex
(`astype('D')`) numpy array.  The constructor records the representation the
claims distinguish. -/
inductive PyVal : Type where
  | real (x : ℚ)
  | cx (z : Cx)
  | realArr (xs : List ℚ)
  | cxArr (zs : List Cx)
  deriving DecidableEq, Repr

/-- `numpy.isscalar` on the modelled values: true for Python floats and
complexes, false for arrays. -/
def PyVal.isscalar : PyVal → Bool
  | .real _ => true
  | .cx _ => true
  | .realArr _ => false
  | .cxArr _ => false

/-- `numpy.array(v).astype('D')` applied in _complexifyFuncs (line 718):
widen an array to complex dtype (a no-op on an already complex array). -/
def PyVal.astypeD : PyVal → PyVal
  | .realArr xs => .cxArr (xs.map (fun x => ⟨x, 0⟩))
  | .cxArr zs => .cxArr zs
  | v => v

/-- `v += 1e-40j` on a scalar (sens line 665): a Python float is widened to
a complex value by the in-place add (the name is rebound to a complex), a
complex scalar stays complex. -/
def PyVal.addImagScalar (eps : ℚ) : PyVal → PyVal
  | .real x => .cx ⟨x, eps⟩
  | .cx z => .cx ⟨z.re, z.im + eps⟩
  | v => v

/-- `v[i] += 1e-40j` on an array element (sens line 687). -/
def PyVal.addImagAt (eps : ℚ) (i : Nat) : PyVal → PyVal
  | .cxArr zs =>
    .cxArr (zs.mapIdx (fun j z => if j = i then ⟨z.re, z.im + eps⟩ else z))
  | v => v

/-- _complexifyFuncs (lines 714-720): for every key in `keys`, a non-scalar
value of `funcs` is REPLACED IN PLACE by its astype('D') widening; this
mutates the dict passed in (in sens, `self.funcs` itself) and returns it. -/
def complexifyFuncs (funcs : List (String × PyVal)) (keys : List String) :
    List (String × PyVal) :=
  keys.foldl
    (fun acc k =>
      match alookup acc k with
      | none => acc
      | some v => if v.isscalar then acc else setKey acc k v.astypeD)
    funcs

/-- The net effect on `self.funcs` of perturbing one scalar input key in the
complex-step loop (sens lines 664-667): `funcs[iKey] += 1e-40j` followed by
`funcs[iKey] -= 1e-40j`, which rebinds a float entry to a complex scalar. -/
def perturbRestoreScalar (funcs : List (String × PyVal)) (k : String) :
    List (String × PyVal) :=
  match alookup funcs k with
  | none => funcs
  | some v =>
    setKey funcs k ((v.addImagScalar csEps).addImagScalar (-csEps))

/-- The net effect on `self.funcs` of the element-wise perturb/restore for a
non-scalar input key (sens lines 686-689) over all components. -/
def perturbRestoreArr (funcs : List (String × PyVal)) (k : String) :
    List (String × PyVal) :=
  match alookup funcs k with
  | none => funcs
  | some v =>
    match v with
    | .cxArr zs =>
      setKey funcs k
        (List.foldl (fun w i => (w.addImagAt csEps i).addImagAt (-csEps) i)
          (PyVal.cxArr zs) (List.range zs.length))
    | _ => funcs

/-- The state of `self.funcs` after sens returns (lines 626-689): the first
`_complexifyFuncs(self.funcs, inputKeys)` call (line 626) widens every
non-scalar input-key entry of the LIVE stored dict in place; line 646 rebinds
the loop variable `funcs` to `self.funcs` again (discarding the extracted
copy of line 629), so the perturb/restore loop of lines 663-689 also acts on
the live stored dict. -/
def sensFuncsAfter (funcs : List (String × PyVal)) (inputKeys : List String) :
    List (String × PyVal) :=
  let widened := complexifyFuncs funcs inputKeys
  inputKeys.foldl
    (fun acc k =>
      match alookup acc k with
      | none => acc
      | some v =>
        if v.isscalar then perturbRestoreScalar acc k
        else perturbRestoreArr acc k)
    widened

/-! ## The worked example of the spec (claim C4)

Combination function `objCon(f) = (f['a'] + f['b'], {'c': f['a'] * f['b']})`
with scalar functionals `a = 3`, `b = 4`; conKeys = {'c'}. -/

/-- Dict access with a default, for the example combination function. -/
def getCx (f : List (String × Cx)) (k : String) : Cx :=
  (alookup f k).getD ⟨0, 0⟩

/-- The example user combination function. -/
def objConEx (f : List (String × Cx)) : Cx × List (String × Cx) :=
  (getCx f "a" + getCx f "b", [("c", getCx f "a" * getCx f "b")])

/-- The stored functionals of the example: `a = 3`, `b = 4`. -/
def funcsEx : List (String × Cx) := [("a", ⟨3, 0⟩), ("b", ⟨4, 0⟩)]

/-- obj lines 562-571 for the example: both functionals are input keys
(neither is a declared constraint), so the combination function is invoked
on the extraction of `{a, b}` from the unified mapping. -/
def objEvalEx : Cx × List (String × Cx) :=
  objConEx [("a", getCx funcsEx "a"), ("b", getCx funcsEx "b")]

/-- The complex-step loop body of sens (lines 663-683) for one scalar input
key: add `1e-40j` to `funcs[iKey]`, re-invoke the combination function, and
take `imag(con[oKey]) / 1e-40` as the derivative of constraint `oKey` with
respect to functional `iKey`. -/
def csDerivCon (uoc : List (String × Cx) → Cx × List (String × Cx))
    (funcs : List (String × Cx)) (iKey oKey : String) : ℚ :=
  let perturbed := setKey funcs iKey (getCx funcs iKey + ⟨0, csEps⟩)
  (getCx (uoc perturbed).2 oKey).im / csEps

/-! ## The per-set callback loop (obj lines 515-527, sens lines 591-603) -/

/-- The inner callback loop for one active processor set (obj lines 518-524):
start from an empty dict, and for each registered callback assert that its
return value is not `None` (`assertNoReturn` carries the set name that the
assertion message interpolates) and merge it with `res.update(tmp)`.  Note
the assert only rejects `None`: an empty dict passes. -/
def runObjFuncsFrom {α : Type} (setName : String) (acc : List (String × α)) :
    List (Option (List (String × α))) → Except PyErr (List (String × α))
  | [] => Except.ok acc
  | none :: _ => Except.error (PyErr.assertNoReturn setName)
  | some d :: rest => runObjFuncsFrom setName (dictUpdate acc d) rest

/-- The callback loop started on the empty dict (obj line 518). -/
def runObjFuncs {α : Type} (setName : String)
    (outs : List (Option (List (String × α)))) :
    Except PyErr (List (String × α)) :=
  runObjFuncsFrom setName [] outs

/-- The outer loop over processor sets (obj lines 515-527 / sens lines
591-603): `res` starts unbound (`none`); for each set whose flag is true it
is rebound to that set's merged callback result, with `res['fail'] = False`
defaulted when absent (lines 526-527 / 602-603).  `resPerSet` is the merged
callback result of each registered set, and `failDef` the `False` value. -/
def resAfterPSetLoop {α : Type} (failDef : α) (setFlags : List Bool)
    (resPerSet : List (List (String × α))) : Option (List (String × α)) :=
  (setFlags.zip resPerSet).foldl
    (fun acc p =>
      if p.1 then
        some (if (alookup p.2 "fail").isSome then p.2
              else p.2 ++ [("fail", failDef)])
      else acc)
    none

/-! ## addProcessorSet (lines 205-247) -/

/-- addProcessorSet (lines 232-247).  The registry `pSet` is the ordered
dict of registered sets (name, memberSizes), `dummy` the dummy-set names.
`nMembers = 0` records a dummy set; otherwise a length-1 `memberSizes` is
broadcast to `nMembers` copies, a list of any other length than `nMembers`
raises MPError, and only on success is the set registered.  (The error is
raised before the registration line 246, so an error leaves the registry of
the caller untouched.) -/
def addProcessorSetModel (pSet : List (String × List Nat))
    (dummy : List String) (setName : String) (nMembers : Nat)
    (memberSizes : List Nat) :
    Except MPErr (List (String × List Nat) × List String) :=
  if nMembers = 0 then
    Except.ok (pSet, dummy ++ [setName])
  else if memberSizes.length = 1 then
    Except.ok
      (pSet ++ [(setName, List.replicate nMembers (memberSizes.getD 0 0))],
        dummy)
  else if memberSizes.length ≠ nMembers then
    Except.error MPErr.memberSizesLength
  else
    Except.ok (pSet ++ [(setName, memberSizes)], dummy)

/-! ## Traced call models for obj and sens (lines 503-616) -/

/-- The broadcast loop shared by obj (lines 546-554) and sens (lines
605-613), with `res` possibly unbound and with the event trace of performed
collective calls.  For a pattern key owned by this rank, `res[key]` is
evaluated BEFORE the broadcast call, so an unbound `res` or a missing key
aborts the loop with no event for that key; a non-owner reaches the
receiving broadcast unconditionally. -/
def bcastLoopFrom {α : Type} (resOpt : Option (List (String × α)))
    (rank : Nat) (recvVal : String → α) (acc : List (String × α))
    (tr : List CommEvent) :
    List (String × Nat) → Except PyErr (List (String × α)) × List CommEvent
  | [] => (Except.ok acc, tr)
  | entry :: rest =>
    if entry.2 = rank then
      match resOpt with
      | none => (Except.error PyErr.unboundLocalRes, tr)
      | some res =>
        match alookup res entry.1 with
        | none => (Except.error (PyErr.keyError entry.1), tr)
        | some v =>
          bcastLoopFrom resOpt rank recvVal (acc ++ [(entry.1, v)])
            (tr ++ [CommEvent.bcastSend entry.1]) rest
    else
      bcastLoopFrom resOpt rank recvVal (acc ++ [(entry.1, recvVal entry.1)])
        (tr ++ [CommEvent.bcastRecv entry.1]) rest

/-- The broadcast loop started on the empty dict with the empty trace. -/
def bcastLoopModel {α : Type} (resOpt : Option (List (String × α)))
    (pattern : List (String × Nat)) (rank : Nat) (recvVal : String → α) :
    Except PyErr (List (String × α)) × List CommEvent :=
  bcastLoopFrom resOpt rank recvVal [] [] pattern

/-- obj on its FIRST call (commPattern still `None`), up to the failure
reduction (lines 515-557): run the per-set loop, then evaluate
`list(res.keys())` as the argument of the allgather — an unbound `res`
raises there, before the gather is performed — then build the pattern from
the gathered key lists, run the broadcast loop, and reduce the fail flag.
`otherKeys` holds the gathered key lists of the other ranks, into which this
rank's own key list is inserted at position `rank`. -/
def objFirstCall {α : Type} (failDef : α) (setFlags : List Bool)
    (resPerSet : List (List (String × α))) (otherKeys : List (List String))
    (rank : Nat) (recvVal : String → α) :
    Except PyErr (List (String × α)) × List CommEvent :=
  match resAfterPSetLoop failDef setFlags resPerSet with
  | none => (Except.error PyErr.unboundLocalRes, [])
  | some res =>
    let allKeys := otherKeys.take rank ++ [res.map Prod.fst] ++
      otherKeys.drop rank
    let pattern := buildCommPattern allKeys
    match bcastLoopModel (some res) pattern rank recvVal with
    | (Except.error e, tr) => (Except.error e, CommEvent.gather :: tr)
    | (Except.ok allFuncs, tr) =>
      match alookup res "fail" with
      | none =>
        (Except.error (PyErr.keyError "fail"), CommEvent.gather :: tr)
      | some _ =>
        (Except.ok allFuncs,
          CommEvent.gather :: tr ++ [CommEvent.reduceFail])

/-- sens up to the failure reduction (lines 591-616): the per-set loop, the
broadcast loop over the FROZEN pattern, then `res['fail']` evaluated as the
argument of the allreduce — an unbound `res` raises there, after the
broadcast loop has already run. -/
def sensCall {α : Type} (failDef : α) (setFlags : List Bool)
    (resPerSet : List (List (String × α))) (pattern : List (String × Nat))
    (rank : Nat) (recvVal : String → α) :
    Except PyErr (List (String × α)) × List CommEvent :=
  let resOpt := resAfterPSetLoop failDef setFlags resPerSet
  match bcastLoopModel resOpt pattern rank recvVal with
  | (Except.error e, tr) => (Except.error e, tr)
  | (Except.ok funcSens, tr) =>
    match resOpt with
    | none => (Except.error PyErr.unboundLocalRes, tr)
    | some res =>
      match alookup res "fail" with
      | none => (Except.error (PyErr.keyError "fail"), tr)
      | some _ => (Except.ok funcSens, tr ++ [CommEvent.reduceFail])

/-! ## Helper lemmas -/

theorem cx_add_def (a b : Cx) : a + b = ⟨a.re + b.re, a.im + b.im⟩ := rfl

theorem cx_mul_def (a b : Cx) :
    a * b = ⟨a.re * b.re - a.im * b.im, a.re * b.im + a.im * b.re⟩ := rfl

theorem alookup_append {α : Type} (l1 l2 : List (String × α)) (k : String) :
    alookup (l1 ++ l2) k =
      match alookup l1 k with
      | some v => some v
      | none => alookup l2 k := by
  induction l1 with
  | nil => simp [alookup]
  | cons p rest ih =>
    by_cases h : p.1 = k
    · simp [alookup, h]
    · simpa [alookup, h] using ih

theorem alookup_isSome_iff {α : Type} (l : List (String × α)) (k : String) :
    (alookup l k).isSome = true ↔ k ∈ l.map Prod.fst := by
  induction l with
  | nil => simp [alookup]
  | cons p rest ih =>
    by_cases h : p.1 = k
    · simp [alookup, h]
    · simp only [alookup, h, if_false, List.map_cons, List.mem_cons, ih]
      constructor
      · exact fun hk => Or.inr hk
      · rintro (hk | hk)
        · exact absurd hk.symm h
        · exact hk

/-- First-some combinator on options: the value of the earlier dict entry
wins (used to state lookup laws for pattern building). -/
def ofirst {α : Type} : Option α → Option α → Option α
  | some v, _ => some v
  | none, o => o

theorem ofirst_none_right {α : Type} (o : Option α) : ofirst o none = o := by
  cases o <;> rfl

theorem ofirst_assoc {α : Type} (a b c : Option α) :
    ofirst (ofirst a b) c = ofirst a (ofirst b c) := by
  cases a <;> rfl

theorem alookup_append_ofirst {α : Type} (l1 l2 : List (String × α))
    (k : String) :
    alookup (l1 ++ l2) k = ofirst (alookup l1 k) (alookup l2 k) := by
  induction l1 with
  | nil => simp [alookup, ofirst]
  | cons p rest ih =>
    by_cases h : p.1 = k
    · simp [alookup, h, ofirst]
    · simpa [alookup, h] using ih

theorem alookup_addRankKeys (i : Nat) (keys : List String) :
    ∀ (pat : List (String × Nat)) (k : String),
      alookup (addRankKeys pat i keys) k =
        ofirst (alookup pat k)
          (if k ≠ "fail" ∧ k ∈ keys then some i else none) := by
  induction keys with
  | nil =>
    intro pat k
    simp [addRankKeys, ofirst_none_right]
  | cons k0 rest ih =>
    intro pat k
    by_cases hs : (alookup pat k0).isSome = true
    · rw [addRankKeys, if_pos hs, ih pat k]
      by_cases hk : k = k0
      · subst hk
        rcases Option.isSome_iff_exists.mp hs with ⟨v, hv⟩
        rw [hv]
        rfl
      · have hmem : (k ∈ k0 :: rest) ↔ (k ∈ rest) := by simp [hk]
        simp [hmem]
    · by_cases hf : k0 = "fail"
      · rw [addRankKeys, if_neg hs, if_pos hf, ih pat k]
        by_cases hk : k = k0
        · subst hk
          simp [hf]
        · have hmem : (k ∈ k0 :: rest) ↔ (k ∈ rest) := by simp [hk]
          simp [hmem]
      · rw [addRankKeys, if_neg hs, if_neg hf, ih _ k,
          alookup_append_ofirst, ofirst_assoc]
        have hone : alookup [(k0, i)] k = if k0 = k then some i else none := by
          simp [alookup]
        rw [hone]
        by_cases hk : k = k0
        · subst hk
          have hup : alookup pat k = none :=
            Option.not_isSome_iff_eq_none.mp hs
          rw [hup]
          simp [ofirst, hf]
        · have hmem : (k ∈ k0 :: rest) ↔ (k ∈ rest) := by simp [hk]
          have hne : ¬ (k0 = k) := fun h => hk h.symm
          simp [hmem, hne, ofirst]

theorem alookup_buildPatternFrom (ls : List (List String)) :
    ∀ (pat : List (String × Nat)) (i : Nat) (k : String),
      alookup (buildPatternFrom pat i ls) k =
        ofirst (alookup pat k)
          (if k = "fail" then none
            else (lowestOwnerSpec k ls).map (· + i)) := by
  induction ls with
  | nil =>
    intro pat i k
    simp [buildPatternFrom, lowestOwnerSpec, ofirst_none_right]
  | cons keys rest ih =>
    intro pat i k
    rw [buildPatternFrom, ih, alookup_addRankKeys, ofirst_assoc]
    congr 1
    by_cases hf : k = "fail"
    · simp [hf, ofirst]
    · by_cases hm : k ∈ keys
      · simp [lowestOwnerSpec, hf, hm, ofirst]
      · have h1 : (if k ≠ "fail" ∧ k ∈ keys then some i else none) =
            (none : Option Nat) := if_neg (fun hand => hm hand.2)
        rw [h1]
        show (if k = "fail" then none
            else (lowestOwnerSpec k rest).map (· + (i + 1))) =
          if k = "fail" then none
            else (lowestOwnerSpec k (keys :: rest)).map (· + i)
        rw [if_neg hf, if_neg hf]
        simp only [lowestOwnerSpec, if_neg hm]
        cases h : lowestOwnerSpec k rest with
        | none => rfl
        | some j =>
          show some (j + (i + 1)) = some (j + 1 + i)
          congr 1
          omega

theorem lowestOwnerSpec_is_first (k : String) :
    ∀ (ls : List (List String)) (i : Nat), lowestOwnerSpec k ls = some i →
      k ∈ ls.getD i [] ∧ ∀ j, j < i → k ∉ ls.getD j [] := by
  intro ls
  induction ls with
  | nil => intro i h; simp [lowestOwnerSpec] at h
  | cons keys rest ih =>
    intro i h
    rw [lowestOwnerSpec] at h
    by_cases hm : k ∈ keys
    · rw [if_pos hm] at h
      cases h
      exact ⟨hm, fun j hj => absurd hj (Nat.not_lt_zero j)⟩
    · rw [if_neg hm] at h
      cases hrec : lowestOwnerSpec k rest with
      | none => rw [hrec] at h; simp at h
      | some i0 =>
        rw [hrec] at h
        have hi : i = i0 + 1 :=
          (Option.some.inj (show some (i0 + 1) = some i from h)).symm
        subst hi
        rcases ih i0 hrec with ⟨hin, hlow⟩
        refine ⟨by simpa using hin, ?_⟩
        intro j hj
        cases j with
        | zero => simpa using hm
        | succ j0 =>
          have : j0 < i0 := by omega
          simpa using hlow j0 this

theorem lowestOwnerSpec_total (k : String) :
    ∀ ls : List (List String), (∃ l ∈ ls, k ∈ l) →
      (lowestOwnerSpec k ls).isSome = true := by
  intro ls
  induction ls with
  | nil => rintro ⟨l, hl, _⟩; simp at hl
  | cons keys rest ih =>
    rintro ⟨l, hl, hk⟩
    rw [lowestOwnerSpec]
    by_cases hm : k ∈ keys
    · simp [hm]
    · rcases List.mem_cons.mp hl with h1 | h1
      · exact absurd (h1 ▸ hk) hm
      · rw [if_neg hm]
        have := ih ⟨l, h1, hk⟩
        cases h2 : lowestOwnerSpec k rest with
        | none => rw [h2] at this; simp at this
        | some j => rfl

/-- C3: the pattern built on the first obj call maps every functional name
appearing in the gathered per-rank key lists to the lowest rank producing it
(first seen in increasing rank order), never contains the reserved name
`fail`, and is frozen: a later call leaves an existing pattern unchanged. -/
theorem c3_comm_pattern_first_seen :
    (∀ (allKeys : List (List String)) (k : String), k ≠ "fail" →
      alookup (buildCommPattern allKeys) k = lowestOwnerSpec k allKeys) ∧
    (∀ allKeys : List (List String),
      alookup (buildCommPattern allKeys) "fail" = none) ∧
    (∀ (allKeys : List (List String)) (k : String) (i : Nat),
      lowestOwnerSpec k allKeys = some i →
        k ∈ allKeys.getD i [] ∧ ∀ j, j < i → k ∉ allKeys.getD j []) ∧
    (∀ (allKeys : List (List String)) (k : String), k ≠ "fail" →
      (∃ l ∈ allKeys, k ∈ l) →
      (alookup (buildCommPattern allKeys) k).isSome = true) ∧
    (∀ (p : List (String × Nat)) (allKeys : List (List String)),
      objUpdatePattern (some p) allKeys = p) ∧
    (∀ allKeys1 allKeys2 : List (List String),
      objUpdatePattern (some (objUpdatePattern none allKeys1)) allKeys2 =
        buildCommPattern allKeys1) := by
  have base : ∀ (allKeys : List (List String)) (k : String),
      alookup (buildCommPattern allKeys) k =
        if k = "fail" then none else lowestOwnerSpec k allKeys := by
    intro allKeys k
    rw [buildCommPattern, alookup_buildPatternFrom]
    show ofirst none _ = _
    rw [show (ofirst none
      (if k = "fail" then none
        else (lowestOwnerSpec k allKeys).map (· + 0)) =
      (if k = "fail" then none
        else (lowestOwnerSpec k allKeys).map (· + 0))) from rfl]
    by_cases hf : k = "fail"
    · simp [hf]
    · rw [if_neg hf, if_neg hf]
      cases h : lowestOwnerSpec k allKeys <;> simp
  refine ⟨?_, ?_, ?_, ?_, ?_, ?_⟩
  · intro allKeys k hk
    rw [base, if_neg hk]
  · intro allKeys
    rw [base, if_pos rfl]
  · exact fun allKeys k i h => lowestOwnerSpec_is_first k allKeys i h
  · intro allKeys k hk hex
    rw [base, if_neg hk]
    exact lowestOwnerSpec_total k allKeys hex
  · intro p allKeys; rfl
  · intro allKeys1 allKeys2; rfl

/-- Witness for C3 at a concrete input: two ranks, the first producing
`cl` and `fail`, the second `cl` and `cd`; the pattern owns `cl` at rank 0,
`cd` at rank 1, and does not contain `fail`. -/
theorem c3_comm_pattern_witness :
    ("cd" ≠ "fail" ∧
      alookup (buildCommPattern [["cl", "fail"], ["cl", "cd"]]) "cd" =
        lowestOwnerSpec "cd" [["cl", "fail"], ["cl", "cd"]]) ∧
    alookup (buildCommPattern [["cl", "fail"], ["cl", "cd"]]) "fail" =
      none ∧
    objUpdatePattern (some [("cl", 0)]) [["cd"]] = [("cl", 0)] :=
  ⟨⟨by decide,
      c3_comm_pattern_first_seen.1 [["cl", "fail"], ["cl", "cd"]] "cd"
        (by decide)⟩,
    c3_comm_pattern_first_seen.2.1 [["cl", "fail"], ["cl", "cd"]],
    c3_comm_pattern_first_seen.2.2.2.2.1 [("cl", 0)] [["cd"]]⟩

/-- C6 (counterexample): with frozen pattern `[f -> rank 0]`, a second-pass
local result on rank 0 containing the NEW key `g` is unified without any
error: the result holds only `f`, and `g` is silently dropped — no
UnregisteredKey-style failure exists in the code. -/
theorem c6_counterexample_new_key_dropped :
    unify [("f", 0)] 0 [("f", (5 : Nat)), ("g", 6)] (fun _ => 0) =
      Except.ok [("f", 5)] ∧
    alookup [("f", (5 : Nat))] "g" = none ∧
    (∀ e, unify [("f", 0)] 0 [("f", (5 : Nat)), ("g", 6)] (fun _ => 0) ≠
      Except.error e) := by
  refine ⟨rfl, rfl, fun e h => ?_⟩
  have hr : (Except.ok [("f", (5 : Nat))] :
      Except PyErr (List (String × Nat))) = Except.error e :=
    (rfl : unify [("f", 0)] 0 [("f", (5 : Nat)), ("g", 6)] (fun _ => 0) =
      Except.ok [("f", 5)]).symm.trans h
  cases hr

/-- C6 (amended): as long as the calling rank holds a local value for every
pattern key it owns, the broadcast loop of a later pass always succeeds and
returns a mapping whose keys are exactly the frozen pattern keys, whatever
extra keys the local result contains: new keys are silently ignored, never
an error. -/
theorem c6_amended_new_keys_ignored {α : Type}
    (pattern : List (String × Nat)) (rank : Nat) (res : List (String × α))
    (recv : String → α)
    (h : ∀ k o, (k, o) ∈ pattern → o = rank → (alookup res k).isSome) :
    ∃ m, unify pattern rank res recv = Except.ok m ∧
      m.map Prod.fst = pattern.map Prod.fst := by
  have key : ∀ (pat : List (String × Nat)) (acc : List (String × α)),
      (∀ k o, (k, o) ∈ pat → o = rank → (alookup res k).isSome) →
      ∃ m, unifyFrom rank res recv acc pat = Except.ok m ∧
        m.map Prod.fst = acc.map Prod.fst ++ pat.map Prod.fst := by
    intro pat
    induction pat with
    | nil => exact fun acc _ => ⟨acc, rfl, by simp⟩
    | cons entry rest ih =>
      intro acc hpat
      have hrest : ∀ k o, (k, o) ∈ rest → o = rank →
          (alookup res k).isSome :=
        fun k o hm => hpat k o (List.mem_cons_of_mem _ hm)
      by_cases ho : entry.2 = rank
      · have hsome : (alookup res entry.1).isSome := by
          refine hpat entry.1 entry.2 ?_ ho
          simp
        rcases Option.isSome_iff_exists.mp hsome with ⟨v, hv⟩
        rcases ih (acc ++ [(entry.1, v)]) hrest with ⟨m, hm1, hm2⟩
        refine ⟨m, ?_, ?_⟩
        · rw [unifyFrom]
          simp only [unifyStep, ho, if_pos, hv]
          exact hm1
        · rw [hm2]
          simp
      · rcases ih (acc ++ [(entry.1, recv entry.1)]) hrest with ⟨m, hm1, hm2⟩
        refine ⟨m, ?_, ?_⟩
        · rw [unifyFrom]
          simp only [unifyStep, ho, if_neg, if_false]
          exact hm1
        · rw [hm2]
          simp
  simpa using key pattern [] h

/-- Witness for C6 (amended) at a concrete input: the counterexample input
itself — rank 0 owns `f` and holds it locally, the extra local key `g` is
ignored. -/
theorem c6_amended_witness :
    (∀ k o, (k, o) ∈ [("f", 0)] → o = 0 →
      (alookup [("f", (5 : Nat)), ("g", 6)] k).isSome) ∧
    ∃ m, unify [("f", 0)] 0 [("f", (5 : Nat)), ("g", 6)] (fun _ => 7) =
      Except.ok m ∧ m.map Prod.fst = [("f", 0)].map Prod.fst := by
  have h : ∀ k o, (k, o) ∈ [("f", 0)] → o = 0 →
      (alookup [("f", (5 : Nat)), ("g", 6)] k).isSome := by
    intro k o hm _
    have hk : k = "f" := by
      rcases List.mem_singleton.mp hm with h1
      exact congrArg Prod.fst h1
    subst hk
    rfl
  exact ⟨h, c6_amended_new_keys_ignored [("f", 0)] 0
    [("f", (5 : Nat)), ("g", 6)] (fun _ => 7) h⟩

/-- The key set of the unified functional mapping (obj line 563). -/
def funckeysModel {α : Type} (allFuncs : List (String × α)) : Finset String :=
  (allFuncs.map Prod.fst).toFinset

/-- C7: after obj, inputKeys is the unified functional names minus the
declared nonlinear-constraint names, outputKeys the declared constraint
names minus the functional names, passThroughKeys their intersection; hence
inputKeys and passThroughKeys are disjoint and cover the functional names,
and the dict handed to the user combination function is defined exactly on
inputKeys. -/
theorem c7_key_partition {α : Type} (allFuncs : List (String × α))
    (conKeys : Finset String) :
    (∀ k, k ∈ inputKeysModel (funckeysModel allFuncs) conKeys ↔
      (k ∈ funckeysModel allFuncs ∧ k ∉ conKeys)) ∧
    (∀ k, k ∈ outputKeysModel (funckeysModel allFuncs) conKeys ↔
      (k ∈ conKeys ∧ k ∉ funckeysModel allFuncs)) ∧
    (∀ k, k ∈ passThroughKeysModel (funckeysModel allFuncs) conKeys ↔
      (k ∈ funckeysModel allFuncs ∧ k ∈ conKeys)) ∧
    Disjoint (inputKeysModel (funckeysModel allFuncs) conKeys)
      (passThroughKeysModel (funckeysModel allFuncs) conKeys) ∧
    inputKeysModel (funckeysModel allFuncs) conKeys ∪
      passThroughKeysModel (funckeysModel allFuncs) conKeys =
        funckeysModel allFuncs ∧
    (∀ k, (extractKeysModel (alookup allFuncs)
        (inputKeysModel (funckeysModel allFuncs) conKeys) k).isSome = true ↔
      k ∈ inputKeysModel (funckeysModel allFuncs) conKeys) := by
  refine ⟨?_, ?_, ?_, ?_, ?_, ?_⟩
  · intro k; simp [inputKeysModel]
  · intro k; simp [outputKeysModel]
  · intro k; simp [passThroughKeysModel]
  · rw [Finset.disjoint_left]
    intro k h1 h2
    rw [inputKeysModel, Finset.mem_sdiff] at h1
    rw [passThroughKeysModel, Finset.mem_inter] at h2
    exact h1.2 h2.2
  · rw [inputKeysModel, passThroughKeysModel]
    exact Finset.sdiff_union_inter _ _
  · intro k
    rw [extractKeysModel]
    by_cases hk : k ∈ inputKeysModel (funckeysModel allFuncs) conKeys
    · rw [if_pos hk]
      have hfk : k ∈ funckeysModel allFuncs :=
        (Finset.mem_sdiff.mp hk).1
      rw [funckeysModel, List.mem_toFinset] at hfk
      simpa [hk] using (alookup_isSome_iff allFuncs k).mpr hfk
    · rw [if_neg hk]
      simp [hk]

/-- Witness for C7 at a concrete input: functionals `cl`, `cd` with declared
nonlinear constraints `cd`, `cmy`: inputKeys is exactly the singleton
`cl`. -/
theorem c7_key_partition_witness :
    "cl" ∈ inputKeysModel (funckeysModel [("cl", (1 : Nat)), ("cd", 2)])
        {"cd", "cmy"} ↔
      ("cl" ∈ funckeysModel [("cl", (1 : Nat)), ("cd", 2)] ∧
        "cl" ∉ ({"cd", "cmy"} : Finset String)) :=
  (c7_key_partition [("cl", (1 : Nat)), ("cd", 2)] {"cd", "cmy"}).1 "cl"

/-! ## Further claim theorems -/

theorem cum_succ_getD (sizes : List Nat) (s : Nat) (h : s < sizes.length) :
    cum sizes (s + 1) = cum sizes s + sizes.getD s 0 := by
  rw [cum, cum, List.sum_take_succ _ _ h]
  simp [List.getD_eq_getElem?_getD, List.getElem?_eq_getElem h]

theorem cum_le_succ (sizes : List Nat) (i : Nat) :
    cum sizes i ≤ cum sizes (i + 1) := by
  rw [cum, cum, List.take_succ]
  simp

theorem cum_mono (sizes : List Nat) : Monotone (cum sizes) :=
  monotone_nat_of_le_succ (cum_le_succ sizes)

theorem cum_cons_succ (s0 : Nat) (rest : List Nat) (i : Nat) :
    cum (s0 :: rest) (i + 1) = s0 + cum rest i := by
  rw [cum, cum, List.take_succ_cons]
  simp

theorem exists_interval (sizes : List Nat) (rank : Nat)
    (h : rank < sizes.sum) :
    ∃ i, i < sizes.length ∧ cum sizes i ≤ rank ∧
      rank < cum sizes (i + 1) := by
  induction sizes generalizing rank with
  | nil => simp at h
  | cons s0 rest ih =>
    by_cases h0 : rank < s0
    · refine ⟨0, by simp, by simp [cum], ?_⟩
      rw [cum_cons_succ]
      show rank < s0 + cum rest 0
      simp [cum]
      omega
    · have hs0 : s0 ≤ rank := by omega
      have h2 : rank - s0 < rest.sum := by
        rw [List.sum_cons] at h
        omega
      rcases ih (rank - s0) h2 with ⟨i, hlen, hle, hlt⟩
      refine ⟨i + 1, by simpa using hlen, ?_, ?_⟩
      · rw [cum_cons_succ]; omega
      · rw [cum_cons_succ]; omega

theorem interval_unique (sizes : List Nat) (rank i j : Nat)
    (hi : cum sizes i ≤ rank ∧ rank < cum sizes (i + 1))
    (hj : cum sizes j ≤ rank ∧ rank < cum sizes (j + 1)) : i = j := by
  by_contra hne
  rcases Nat.lt_or_ge i j with hlt | hge
  · have hc : cum sizes (i + 1) ≤ cum sizes j := cum_mono sizes (by omega)
    omega
  · have hgt : j < i := by omega
    have hc : cum sizes (j + 1) ≤ cum sizes i := cum_mono sizes (by omega)
    omega

theorem foldl_last_match (P : Nat → Bool) :
    ∀ (n j : Nat), j < n → P j = true → (∀ i, i < n → P i = true → i = j) →
      (List.range n).foldl
        (fun acc i => if P i then some i else acc) none = some j := by
  intro n
  induction n with
  | zero => intro j hj; omega
  | succ n ih =>
    intro j hj hP huniq
    rw [List.range_succ, List.foldl_append, List.foldl_cons, List.foldl_nil]
    by_cases hn : P n = true
    · have hjn : n = j := huniq n (by omega) hn
      subst hjn
      simp [hn]
    · have hne : j ≠ n := fun hh => hn (hh ▸ hP)
      rw [if_neg hn]
      exact ih j (by omega) hP (fun i hi hPi => huniq i (by omega) hPi)

theorem getD_map_range {α : Type} (f : Nat → α) (n i : Nat) (d : α)
    (h : i < n) : ((List.range n).map f).getD i d = f i := by
  simp [List.getD_eq_getElem?_getD, List.getElem?_map, List.getElem?_range h]

theorem inInterval_iff (sizes : List Nat) (rank i : Nat) :
    inInterval sizes rank i = true ↔
      (cum sizes i ≤ rank ∧ rank < cum sizes (i + 1)) := by
  simp [inInterval]

/-- The unique interval assignment: under `rank < sizes.sum` there is exactly
one matching index, the loop variable holds it, and the flag vector is true
exactly there. -/
theorem memberKeyModel_spec (sizes : List Nat) (rank : Nat)
    (h : rank < sizes.sum) :
    ∃ i, i < sizes.length ∧
      memberKeyModel sizes rank = some i ∧
      cum sizes i ≤ rank ∧ rank < cum sizes (i + 1) ∧
      (∀ i2, i2 < sizes.length →
        (inInterval sizes rank i2 = true ↔ i2 = i)) := by
  rcases exists_interval sizes rank h with ⟨i, hlen, hle, hlt⟩
  have huniq : ∀ i2, i2 < sizes.length → inInterval sizes rank i2 = true →
      i2 = i := by
    intro i2 _ h2
    exact interval_unique sizes rank i2 i ((inInterval_iff _ _ _).mp h2)
      ⟨hle, hlt⟩
  refine ⟨i, hlen, ?_, hle, hlt, ?_⟩
  · rw [memberKeyModel]
    exact foldl_last_match (inInterval sizes rank) sizes.length i hlen
      ((inInterval_iff _ _ _).mpr ⟨hle, hlt⟩) huniq
  · intro i2 h2
    constructor
    · exact huniq i2 h2
    · intro he
      subst he
      exact (inInterval_iff _ _ _).mpr ⟨hle, hlt⟩

theorem getD_map_sum (sets : List (List Nat)) (s : Nat)
    (h : s < sets.length) :
    (sets.map List.sum).getD s 0 = (sets.getD s []).sum := by
  have hm : s < (sets.map List.sum).length := by simpa using h
  simp [List.getD_eq_getElem?_getD, List.getElem?_map,
    List.getElem?_eq_getElem h, List.getElem?_eq_getElem hm]

/-- C1: with processor-set sizes summing exactly to the global size, every
rank is assigned to exactly one set by interval membership in the cumulative
prefix sums (the setFlags vector is true exactly at that set), and inside
that set the split-local rank is assigned to exactly one member, whose index
is both the only true groupFlags entry and the returned ptID. -/
theorem c1_one_set_one_member (sets : List (List Nat)) (rank : Nat)
    (h : rank < (sets.map List.sum).sum) :
    ∃ s m gflags,
      s < sets.length ∧
      memberKeyModel (sets.map List.sum) rank = some s ∧
      createCommunicatorsModel sets ((sets.map List.sum).sum) rank =
        (Except.ok (setFlagsModel (sets.map List.sum) rank, s),
          [CommEvent.split]) ∧
      (∀ i, i < sets.length →
        ((setFlagsModel (sets.map List.sum) rank).getD i false = true ↔
          i = s)) ∧
      setCommRank (sets.map List.sum) s rank < (sets.getD s []).sum ∧
      m < (sets.getD s []).length ∧
      procSetCreateCommunicators (sets.getD s [])
        (setCommRank (sets.map List.sum) s rank) = some (gflags, m) ∧
      (∀ i, i < (sets.getD s []).length →
        (gflags.getD i false = true ↔ i = m)) := by
  rcases memberKeyModel_spec (sets.map List.sum) rank h with
    ⟨s, hs, hkey, hle, hlt, huniq⟩
  have hslen : s < sets.length := by simpa using hs
  have hlocal : setCommRank (sets.map List.sum) s rank <
      (sets.getD s []).sum := by
    rw [setCommRank]
    have hcum : cum (sets.map List.sum) (s + 1) =
        cum (sets.map List.sum) s + (sets.getD s []).sum := by
      rw [cum_succ_getD _ _ hs, getD_map_sum sets s hslen]
    omega
  rcases memberKeyModel_spec (sets.getD s [])
      (setCommRank (sets.map List.sum) s rank) hlocal with
    ⟨m, hm, hmkey, _, _, hmuniq⟩
  have hcc : createCommunicatorsModel sets ((sets.map List.sum).sum) rank =
      (Except.ok (setFlagsModel (sets.map List.sum) rank, s),
        [CommEvent.split]) := by
    simp only [createCommunicatorsModel]
    rw [if_neg (by omega :
      ¬ ((sets.map List.sum).sum < (sets.map List.sum).sum ∨
        (sets.map List.sum).sum > (sets.map List.sum).sum)), hkey]
  refine ⟨s, m,
    (List.range (sets.getD s []).length).map (fun i => decide (i = m)),
    hslen, hkey, hcc, ?_, hlocal, hm, ?_, ?_⟩
  · intro i hi
    have hgetD : (setFlagsModel (sets.map List.sum) rank).getD i false =
        inInterval (sets.map List.sum) rank i := by
      rw [setFlagsModel]
      exact getD_map_range _ _ _ _ (by simpa using hi)
    rw [hgetD]
    exact huniq i (by simpa using hi)
  · rw [procSetCreateCommunicators, hmkey]
  · intro i hi
    rw [getD_map_range _ _ _ _ hi]
    simp

/-- Witness for C1 at a concrete input: two sets with member sizes `[1]` and
`[1, 2]` (totals 1 and 3) on 4 processors, at global rank 2: the rank lands
in set 1 with split-local rank 1, assigned to member 1. -/
theorem c1_one_set_one_member_witness :
    2 < ((([[1], [1, 2]] : List (List Nat)).map List.sum).sum) ∧
    ∃ s m gflags,
      s < ([[1], [1, 2]] : List (List Nat)).length ∧
      memberKeyModel (([[1], [1, 2]] : List (List Nat)).map List.sum) 2 =
        some s ∧
      createCommunicatorsModel [[1], [1, 2]]
        ((([[1], [1, 2]] : List (List Nat)).map List.sum).sum) 2 =
        (Except.ok
          (setFlagsModel (([[1], [1, 2]] : List (List Nat)).map List.sum) 2,
            s), [CommEvent.split]) ∧
      (∀ i, i < ([[1], [1, 2]] : List (List Nat)).length →
        ((setFlagsModel (([[1], [1, 2]] : List (List Nat)).map List.sum)
          2).getD i false = true ↔ i = s)) ∧
      setCommRank (([[1], [1, 2]] : List (List Nat)).map List.sum) s 2 <
        (([[1], [1, 2]] : List (List Nat)).getD s []).sum ∧
      m < (([[1], [1, 2]] : List (List Nat)).getD s []).length ∧
      procSetCreateCommunicators
        (([[1], [1, 2]] : List (List Nat)).getD s [])
        (setCommRank (([[1], [1, 2]] : List (List Nat)).map List.sum) s 2) =
          some (gflags, m) ∧
      (∀ i, i < (([[1], [1, 2]] : List (List Nat)).getD s []).length →
        (gflags.getD i false = true ↔ i = m)) :=
  ⟨by decide, c1_one_set_one_member [[1], [1, 2]] 2 (by decide)⟩

theorem resAfterPSetLoop_all_false {α : Type} (failDef : α)
    (setFlags : List Bool) (resPerSet : List (List (String × α)))
    (h : ∀ f ∈ setFlags, f = false) :
    resAfterPSetLoop failDef setFlags resPerSet = none := by
  induction setFlags generalizing resPerSet with
  | nil => rfl
  | cons f fs ih =>
    cases resPerSet with
    | nil => rfl
    | cons r rs =>
      have hf : f = false := h f (List.mem_cons_self _ _)
      subst hf
      rw [resAfterPSetLoop]
      simp only [List.zip_cons_cons, List.foldl_cons, if_neg]
      exact ih rs (fun g hg => h g (List.mem_cons_of_mem _ hg))

theorem bcastLoopFrom_none_res {α : Type} (rank : Nat)
    (recv : String → α) :
    ∀ (pattern : List (String × Nat)) (acc : List (String × α))
      (tr : List CommEvent),
      (bcastLoopFrom (none : Option (List (String × α))) rank recv acc tr
          pattern).1 = Except.error PyErr.unboundLocalRes ∨
      ∃ l, (bcastLoopFrom (none : Option (List (String × α))) rank recv acc
          tr pattern).1 = Except.ok l := by
  intro pattern
  induction pattern with
  | nil => exact fun acc tr => Or.inr ⟨acc, rfl⟩
  | cons entry rest ih =>
    intro acc tr
    rw [bcastLoopFrom]
    by_cases ho : entry.2 = rank
    · rw [if_pos ho]
      exact Or.inl rfl
    · rw [if_neg ho]
      exact ih _ _

/-- C10 (counterexample): a rank with every setFlags entry false and a
frozen pattern owning key `f` at another rank DOES reach and perform the
broadcast-receive step of sens before failing: the call fails with the
unbound-local `res` error only afterwards, at the failure reduction, with a
non-empty communication trace — not before the broadcast step. -/
theorem c10_counterexample_sens_broadcast_reached :
    sensCall false [false] [[]] [("f", 0)] 1 (fun _ => false) =
      (Except.error PyErr.unboundLocalRes, [CommEvent.bcastRecv "f"]) ∧
    (sensCall false [false] [[]] [("f", 0)] 1 (fun _ => false)).2 ≠ [] := by
  refine ⟨rfl, ?_⟩
  rw [show sensCall false [false] [[]] [("f", 0)] 1 (fun _ => false) =
    (Except.error PyErr.unboundLocalRes, [CommEvent.bcastRecv "f"]) from rfl]
  simp

/-- C10 (amended): a process whose setFlags entries are all false never
produces a defaulted empty local result: its first obj call fails with the
unbound-local `res` error before performing any gather, broadcast or
reduction (empty trace), and its sens call also fails with the
unbound-local `res` error — though sens reaches the broadcast loop first
(failing there if the rank owns a pattern key, and otherwise at the failure
reduction, after the broadcast receives). -/
theorem c10_no_active_set_unbound_res {α : Type} (failDef : α)
    (setFlags : List Bool) (resPerSet : List (List (String × α)))
    (pattern : List (String × Nat)) (rank : Nat) (recv : String → α)
    (hflags : ∀ f ∈ setFlags, f = false) :
    (∀ otherKeys,
      objFirstCall failDef setFlags resPerSet otherKeys rank recv =
        (Except.error PyErr.unboundLocalRes, [])) ∧
    (sensCall failDef setFlags resPerSet pattern rank recv).1 =
      Except.error PyErr.unboundLocalRes := by
  have hres := resAfterPSetLoop_all_false failDef setFlags resPerSet hflags
  constructor
  · intro otherKeys
    rw [objFirstCall, hres]
  · rw [sensCall, hres]
    rcases bcastLoopFrom_none_res rank recv pattern [] [] with h1 | ⟨l, h1⟩
    · rcases hx : bcastLoopFrom (none : Option (List (String × α))) rank
          recv [] [] pattern with ⟨ex, tr⟩
      rw [hx] at h1
      simp only at h1
      subst h1
      rw [bcastLoopModel, hx]
    · rcases hx : bcastLoopFrom (none : Option (List (String × α))) rank
          recv [] [] pattern with ⟨ex, tr⟩
      rw [hx] at h1
      simp only at h1
      subst h1
      rw [bcastLoopModel, hx]

/-- Witness for C10 (amended) at a concrete input: one registered set with
its flag false; obj fails before any collective call and sens fails with the
unbound `res` error. -/
theorem c10_no_active_set_witness :
    (∀ f ∈ [false], f = false) ∧
    objFirstCall false [false] ([[]] : List (List (String × Bool))) [] 1
      (fun _ => false) = (Except.error PyErr.unboundLocalRes, []) ∧
    (sensCall false [false] ([[]] : List (List (String × Bool)))
      [("f", 0)] 1 (fun _ => false)).1 =
        Except.error PyErr.unboundLocalRes := by
  have hf : ∀ f ∈ [false], f = false := by
    intro f hf
    simpa using hf
  have h := c10_no_active_set_unbound_res false [false]
    ([[]] : List (List (String × Bool))) [("f", 0)] 1 (fun _ => false) hf
  exact ⟨hf, h.1 [], h.2⟩

/-- C4: for the combination function `objCon(f) = (f.a + f.b, [c: f.a * f.b])`
with scalar functionals `a = 3`, `b = 4`, obj yields objective 7 and
constraint `c = 12`, and the complex-step loop of sens (perturb one input by
`1e-40j`, re-invoke the combination function, take `imag / 1e-40`) yields the
derivative of `c` with respect to `a` exactly 4 and with respect to `b`
exactly 3. -/
theorem c4_example_obj_and_cs_derivs :
    objEvalEx = (⟨7, 0⟩, [("c", ⟨12, 0⟩)]) ∧
    csDerivCon objConEx funcsEx "a" "c" = 4 ∧
    csDerivCon objConEx funcsEx "b" "c" = 3 := by
  refine ⟨?_, ?_, ?_⟩
  · simp [objEvalEx, objConEx, getCx, funcsEx, alookup, cx_add_def, cx_mul_def]
    norm_num
  · simp [csDerivCon, objConEx, getCx, funcsEx, alookup, setKey, cx_add_def,
      cx_mul_def, csEps]
    norm_num
  · simp [csDerivCon, objConEx, getCx, funcsEx, alookup, setKey, cx_add_def,
      cx_mul_def, csEps]

/-- C2 (code bug): with a stored snapshot holding the scalar functional
`a = 3` as a Python float and `a` an input key, the sens fragment rebinds
the LIVE stored entry to a complex scalar (the perturbation loop of lines
663-667 operates on `self.funcs` itself after line 646 discards the
extracted copy), so after sens the snapshot holds `complex(3, 0)` instead of
the float `3`: the stored real-valued representation is not preserved. -/
theorem c2_sens_mutates_stored_snapshot :
    sensFuncsAfter [("a", PyVal.real 3)] ["a"] = [("a", PyVal.cx ⟨3, 0⟩)] ∧
    sensFuncsAfter [("a", PyVal.real 3)] ["a"] ≠ [("a", PyVal.real 3)] := by
  have h : sensFuncsAfter [("a", PyVal.real 3)] ["a"] =
      [("a", PyVal.cx ⟨3, 0⟩)] := by
    simp [sensFuncsAfter, complexifyFuncs, alookup, PyVal.isscalar,
      perturbRestoreScalar, setKey, PyVal.addImagScalar, csEps]
  refine ⟨h, ?_⟩
  rw [h]
  simp

/-- C5: createCommunicators raises an MPError naming the required total
processor count whenever the registered set sizes do not sum to the global
communicator size, in either direction, and performs no communicator split
(empty event trace); createGroups likewise raises an MPError naming both the
communicator size and the requested total before any split. -/
theorem c5_size_mismatch_raises_before_split :
    (∀ (sets : List (List Nat)) (gcommSize rank : Nat),
      (sets.map List.sum).sum ≠ gcommSize →
      createCommunicatorsModel sets gcommSize rank =
        (Except.error (MPErr.exactProcs (sets.map List.sum).sum), [])) ∧
    (∀ (sizes : List Nat) (commSize rank : Nat),
      commSize ≠ sizes.sum →
      createGroupsModel sizes commSize rank =
        (Except.error (MPErr.cannotSplit commSize sizes.sum), [])) := by
  constructor
  · intro sets gcommSize rank h
    simp [createCommunicatorsModel, h.lt_or_lt]
  · intro sizes commSize rank h
    simp [createGroupsModel, h]

/-- Witness for C5 at a concrete input: two sets of totals 2 and 3 on a
communicator of size 4 (and sizes `[2, 3]` on a communicator of size 4). -/
theorem c5_size_mismatch_witness :
    ((([[1, 1], [3]] : List (List Nat)).map List.sum).sum ≠ 4 ∧
      createCommunicatorsModel [[1, 1], [3]] 4 0 =
        (Except.error (MPErr.exactProcs 5), [])) ∧
    ((4 : Nat) ≠ ([2, 3] : List Nat).sum ∧
      createGroupsModel [2, 3] 4 0 =
        (Except.error (MPErr.cannotSplit 4 5), [])) := by
  refine ⟨⟨by decide, ?_⟩, ⟨by decide, ?_⟩⟩
  · exact c5_size_mismatch_raises_before_split.1 [[1, 1], [3]] 4 0 (by decide)
  · exact c5_size_mismatch_raises_before_split.2 [2, 3] 4 0 (by decide)

/-- C8 (counterexample): a callback returning an EMPTY mapping passes the
`assert tmp is not None` check of obj (lines 521-523): the evaluation
succeeds with an empty merged result and raises nothing, contradicting the
claim that every callback must return a non-empty mapping. -/
theorem c8_counterexample_empty_dict_accepted :
    runObjFuncs "cruise" [some ([] : List (String × Nat))] = Except.ok [] ∧
    ∀ e, runObjFuncs "cruise" [some ([] : List (String × Nat))] ≠
      Except.error e := by
  refine ⟨rfl, fun e h => ?_⟩
  have hr : Except.ok ([] : List (String × Nat)) = Except.error e :=
    (rfl : runObjFuncs "cruise" [some []] = Except.ok []).symm.trans h
  cases hr

/-- C8 (amended): a callback returning `None` makes obj fail with an
assertion error naming the offending processor set, and when no callback
returns `None` — an empty mapping included — the loop succeeds. -/
theorem c8_none_return_asserts {α : Type} (setName : String)
    (outs : List (Option (List (String × α)))) :
    (none ∈ outs →
      runObjFuncs setName outs =
        Except.error (PyErr.assertNoReturn setName)) ∧
    (none ∉ outs → ∃ d, runObjFuncs setName outs = Except.ok d) := by
  have key : ∀ (acc : List (String × α)),
      (none ∈ outs →
        runObjFuncsFrom setName acc outs =
          Except.error (PyErr.assertNoReturn setName)) ∧
      (none ∉ outs → ∃ d, runObjFuncsFrom setName acc outs = Except.ok d) := by
    induction outs with
    | nil => exact fun acc => ⟨by simp, fun _ => ⟨acc, rfl⟩⟩
    | cons out rest ih =>
      intro acc
      match out with
      | none => exact ⟨fun _ => rfl, fun h => absurd (List.mem_cons_self _ _) h⟩
      | some d =>
        constructor
        · intro h
          have hr : none ∈ rest := by
            rcases List.mem_cons.mp h with h1 | h1
            · exact absurd h1.symm (by simp)
            · exact h1
          exact (ih (dictUpdate acc d)).1 hr
        · intro h
          have hr : none ∉ rest := fun hx => h (List.mem_cons_of_mem _ hx)
          exact (ih (dictUpdate acc d)).2 hr
  exact key []

/-- Witness for C8 (amended) at a concrete input: one callback returning
`None` for set "cruise", and one callback returning a singleton dict. -/
theorem c8_none_return_witness :
    ((none ∈ ([none] : List (Option (List (String × Nat))))) ∧
      runObjFuncs "cruise" ([none] : List (Option (List (String × Nat)))) =
        Except.error (PyErr.assertNoReturn "cruise")) ∧
    ((none ∉ ([some [("cl", 1)]] : List (Option (List (String × Nat))))) ∧
      ∃ d, runObjFuncs "cruise"
        ([some [("cl", 1)]] : List (Option (List (String × Nat)))) =
          Except.ok d) := by
  refine ⟨⟨by simp, ?_⟩, ⟨by simp, ?_⟩⟩
  · exact (c8_none_return_asserts "cruise" [none]).1 (by simp)
  · exact (c8_none_return_asserts "cruise" [some [("cl", 1)]]).2 (by simp)

/-- C9: addProcessorSet with `nMembers >= 1` and a memberSizes list whose
length is neither 1 nor nMembers raises the length-mismatch MPError; since
the error is raised before the registration line, no processor set is
registered and the list is never truncated or padded. -/
theorem c9_memberSizes_length_mismatch (pSet : List (String × List Nat))
    (dummy : List String) (setName : String) (nMembers : Nat)
    (memberSizes : List Nat) (hn : 1 ≤ nMembers)
    (h1 : memberSizes.length ≠ 1) (h2 : memberSizes.length ≠ nMembers) :
    addProcessorSetModel pSet dummy setName nMembers memberSizes =
      Except.error MPErr.memberSizesLength := by
  have hn0 : ¬ nMembers = 0 := by omega
  simp [addProcessorSetModel, hn0, h1, h2]

/-- Witness for C9 at a concrete input: 2 members with a 3-element size
list. -/
theorem c9_memberSizes_length_witness :
    1 ≤ 2 ∧ ([10, 20, 30] : List Nat).length ≠ 1 ∧
    ([10, 20, 30] : List Nat).length ≠ 2 ∧
    addProcessorSetModel [] [] "maneuver" 2 [10, 20, 30] =
      Except.error MPErr.memberSizesLength :=
  ⟨by decide, by decide, by decide,
    c9_memberSizes_length_mismatch [] [] "maneuver" 2 [10, 20, 30]
      (by decide) (by decide) (by decide)⟩

end MPS
